import Mathlib

/-!
Verification development for the SEDIF water-consumption payload-mining and
aggregation engine (`sedif_scraper.py`).

The Python code is shallowly embedded: JSON documents become the inductive
`Json`; Python `dict`s are insertion-ordered association lists; Python floats
are modelled by exact rationals (`Rat`); calendar dates are modelled as days
since the Unix epoch (`Int`), with civil-calendar conversions implementing the
proleptic Gregorian calendar that Python's `datetime` uses.  Fallible Python
operations return `Option`.
-/

/-- A JSON document: the payload trees the scraper walks.  Python `dict`s
preserve insertion order, so objects are association lists. -/
inductive Json where
  | null : Json
  | bool : Bool → Json
  | num : Rat → Json
  | str : String → Json
  | arr : List Json → Json
  | obj : List (String × Json) → Json
deriving Inhabited, Repr

/-- Python truthiness of a JSON value (`bool(x)`). -/
def jsonTruthy : Json → Bool
  | .null => false
  | .bool b => b
  | .num q => q ≠ 0
  | .str s => s ≠ ""
  | .arr xs => !xs.isEmpty
  | .obj kvs => !kvs.isEmpty

/-- ASCII lower-casing, modelling Python `str.lower()` on the ASCII keys the
scraper handles. -/
def pyLower (s : String) : String := String.mk (s.data.map Char.toLower)

/-- Whether `c` is an ASCII lowercase letter or digit (the characters kept by
the regex `[^a-z0-9]` substitution in `_normalize_key`). -/
def isLowerAlnum (c : Char) : Bool :=
  ('a' ≤ c && c ≤ 'z') || ('0' ≤ c && c ≤ '9')

/-- `_normalize_key`: lower-case then drop every character outside `[a-z0-9]`. -/
def normalize_key (k : String) : String :=
  String.mk ((pyLower k).data.filter isLowerAlnum)

/-- Whether the character list `pat` occurs contiguously inside `s`
(Python's `pat in s` substring test). -/
def listHasSub (pat : List Char) : List Char → Bool
  | [] => pat.isEmpty
  | c :: cs => pat.isPrefixOf (c :: cs) || listHasSub pat cs

/-- Python's substring containment `pat in s`. -/
def strContains (s pat : String) : Bool := listHasSub pat.data s.data

/-- ASCII decimal digit test. -/
def isDigitC (c : Char) : Bool := '0' ≤ c && c ≤ '9'

/-- Whitespace characters stripped by Python `str.strip()` (ASCII whitespace
plus the non-breaking space, which Python treats as whitespace). -/
def isSpaceC (c : Char) : Bool :=
  c = ' ' || c = '\t' || c = '\n' || c = '\r' || c = '\x0b' || c = '\x0c' || c = '\xa0'

/-- Strip whitespace from both ends, as Python `str.strip()`. -/
def stripChars (l : List Char) : List Char :=
  ((l.dropWhile isSpaceC).reverse.dropWhile isSpaceC).reverse

/-- Replace each (non-overlapping, left-to-right) occurrence of the two-character
sequence `m³` by `m3`, as `str.replace("m³", "m3")`. -/
def replaceM3Glyph : List Char → List Char
  | 'm' :: '³' :: rest => 'm' :: '3' :: replaceM3Glyph rest
  | c :: rest => c :: replaceM3Glyph rest
  | [] => []

/-- The cleaning pipeline of `_coerce_float` applied to a string: strip, map
non-breaking spaces to spaces, drop euro signs, normalize the cubic-meter
glyph, drop spaces, turn decimal commas into points. -/
def cleanNum (s : String) : List Char :=
  let l := stripChars s.data
  let l := l.map (fun c => if c = '\xa0' then ' ' else c)
  let l := l.filter (fun c => c ≠ '€')
  let l := replaceM3Glyph l
  let l := l.filter (fun c => c ≠ ' ')
  l.map (fun c => if c = ',' then '.' else c)

/-- Numeric value of a list of decimal digits. -/
def digitsVal (l : List Char) : Nat :=
  l.foldl (fun n c => 10 * n + (c.toNat - 48)) 0

/-- Try to match the regex `[-+]?\d+(?:\.\d+)?` anchored at the head of `l`,
returning the matched value as an exact rational. -/
def numAt (l : List Char) : Option Rat :=
  let sgnBody : Int × List Char :=
    match l with
    | '-' :: rest => (-1, rest)
    | '+' :: rest => (1, rest)
    | _ => (1, l)
  let sgn := sgnBody.1
  let body := sgnBody.2
  let ds := body.takeWhile isDigitC
  if ds.isEmpty then none
  else
    let rest := body.drop ds.length
    let fs : List Char :=
      match rest with
      | '.' :: r2 => r2.takeWhile isDigitC
      | _ => []
    let frac : Rat := if fs.isEmpty then 0 else (digitsVal fs : Rat) / ((10 : Rat) ^ fs.length)
    some (sgn * ((digitsVal ds : Rat) + frac))

/-- `re.search` for the number pattern: first position (scanning left to
right) at which the pattern matches. -/
def searchNum : List Char → Option Rat
  | [] => none
  | c :: rest =>
    match numAt (c :: rest) with
    | some v => some v
    | none => searchNum rest

/-- `_coerce_float`: numbers pass through; booleans are Python `int`s; strings
are cleaned and scanned for the first decimal number.  Python parses the match
with `float(...)`; the binary rounding of that conversion is idealized away by
exact rationals. -/
def coerce_float : Json → Option Rat
  | .null => none
  | .bool b => some (if b then 1 else 0)
  | .num q => some q
  | .str s => searchNum (cleanNum s)
  | .arr _ => none
  | .obj _ => none

/-- Round a rational to the nearest integer, ties to even — the rounding mode
of Python's builtin `round`. -/
def roundHalfEven (x : Rat) : Int :=
  let f := x.floor
  let r := x - (f : Rat)
  if r < 1 / 2 then f
  else if 1 / 2 < r then f + 1
  else if f % 2 = 0 then f else f + 1

/-- Python `round(x, n)` where `p = 10^n`, idealized to exact rationals. -/
def pyRound (x : Rat) (p : Int) : Rat := ((roundHalfEven (x * (p : Rat)) : Int) : Rat) / (p : Rat)

/-- `round(x, 6)`, used to build deduplication keys. -/
def round6 (x : Rat) : Rat := pyRound x 1000000

/-- `_round_money` on a present value: `round(x, 2)`. -/
def round2 (x : Rat) : Rat := pyRound x 100

/-! ## Civil calendar arithmetic

Dates are days since 1970-01-01.  The conversions implement the proleptic
Gregorian calendar (Howard Hinnant's algorithms), matching Python `datetime`
/ `calendar`. -/

/-- Epoch day → (year, month, day). -/
def civilFromDays (z0 : Int) : Int × Int × Int :=
  let z := z0 + 719468
  let era := Int.fdiv z 146097
  let doe := z - era * 146097
  let yoe := Int.fdiv (doe - Int.fdiv doe 1460 + Int.fdiv doe 36524 - Int.fdiv doe 146096) 365
  let y := yoe + era * 400
  let doy := doe - (365 * yoe + Int.fdiv yoe 4 - Int.fdiv yoe 100)
  let mp := Int.fdiv (5 * doy + 2) 153
  let d := doy - Int.fdiv (153 * mp + 2) 5 + 1
  let m := mp + (if mp < 10 then 3 else -9)
  (y + (if m ≤ 2 then 1 else 0), m, d)

/-- (year, month, day) → epoch day. -/
def daysFromCivil (y0 m d : Int) : Int :=
  let y := y0 - (if m ≤ 2 then 1 else 0)
  let era := Int.fdiv y 400
  let yoe := y - era * 400
  let mp := if 2 < m then m - 3 else m + 9
  let doy := Int.fdiv (153 * mp + 2) 5 + d - 1
  let doe := yoe * 365 + Int.fdiv yoe 4 - Int.fdiv yoe 100 + doy
  era * 146097 + doe - 719468

/-- Gregorian leap-year test. -/
def isLeapYear (y : Int) : Bool :=
  (y % 4 = 0 && y % 100 ≠ 0) || y % 400 = 0

/-- `calendar.monthrange(y, m)[1]`: number of days in the month. -/
def daysInMonth (y m : Int) : Int :=
  if m = 2 then (if isLeapYear y then 29 else 28)
  else if m = 4 || m = 6 || m = 9 || m = 11 then 30
  else 31

/-- Python `date.weekday()`: Monday = 0.  Epoch day 0 (1970-01-01) was a
Thursday. -/
def weekdayOf (d : Int) : Int := (d + 3) % 7

/-- Zero-pad a month/day number to two digits. -/
def pad2 (n : Int) : String := if n < 10 then "0" ++ toString n else toString n

/-- ISO `YYYY-MM-DD` rendering of an epoch day (time-of-day, which Python's
`datetime.isoformat` appends, carries no information at our day granularity). -/
def isoDateStr (d : Int) : String :=
  let c := civilFromDays d
  toString c.1 ++ "-" ++ pad2 c.2.1 ++ "-" ++ pad2 c.2.2

/-! ## Alias tables (static constants of the scraper) -/

/-- `DATE_KEYS`. -/
def DATE_KEYS : List String :=
  ["date", "jour", "day", "dateconso", "datereleve", "date_releve", "date_index"]

/-- `VOLUME_KEYS`. -/
def VOLUME_KEYS : List String :=
  ["volume", "conso", "consommation", "litre", "litres", "m3", "m^3"]

/-- `COST_KEYS`. -/
def COST_KEYS : List String := ["euros", "euro", "prix", "montant", "ttc", "cost"]

/-- `UNIT_KEYS`. -/
def UNIT_KEYS : List String := ["unit", "unite", "unité", "uom"]

/-- `PRICE_KEYS` (a set of already-normalized names; membership is exact). -/
def PRICE_KEYS : List String :=
  ["prixmoyeneau", "prixmoyen", "prixmoyen_eau", "prixmoyenent", "prixm3"]

/-- `METADATA_KEYS`: normalized source key → canonical target key. -/
def METADATA_KEYS : List (String × String) :=
  [("consommationmax", "consommation_max_m3"),
   ("consommationmoyenne", "consommation_moyenne_m3"),
   ("dateconsommationmax", "date_consommation_max"),
   ("datedebut", "date_debut"),
   ("datefin", "date_fin"),
   ("idpds", "id_pds"),
   ("numerocompteur", "numero_compteur"),
   ("indexmesure", "index_mesure")]

/-! ## Date parsing -/

/-- Read a fixed-width run of decimal digits as a number, or fail. -/
def digitsValue? (l : List Char) : Option Nat :=
  if l ≠ [] && l.all isDigitC then some (digitsVal l) else none

/-- Parse a leading `YYYY-MM-DD` (the `^\d{4}-\d{2}-\d{2}` regex branch of
`_parse_date`), validating the civil date as `dateutil` does.  Trailing text
(e.g. a time suffix) is ignored in this day-granularity model. -/
def parseIsoPrefix (l : List Char) : Option Int :=
  match l with
  | y1 :: y2 :: y3 :: y4 :: '-' :: m1 :: m2 :: '-' :: d1 :: d2 :: _ =>
    match digitsValue? [y1, y2, y3, y4], digitsValue? [m1, m2], digitsValue? [d1, d2] with
    | some y, some m, some d =>
      if 1 ≤ m && m ≤ 12 && 1 ≤ d && (d : Int) ≤ daysInMonth y m then
        some (daysFromCivil (y : Int) (m : Int) (d : Int))
      else none
    | _, _, _ => none
  | _ => none

/-- Day-first parsing `DD/MM/YYYY` with a four-digit year: a model of the
`dateutil.parser.parse(value, dayfirst=True)` call for the formats the portal
emits (external-library behaviour, modelled at day granularity). -/
def parseDayFirst (s : String) : Option Int :=
  match s.data.splitOnP (· = '/') with
  | [ds, ms, ys] =>
    match digitsValue? ds, digitsValue? ms, digitsValue? ys with
    | some d, some m, some y =>
      if ys.length = 4 && 1 ≤ m && m ≤ 12 && 1 ≤ d && (d : Int) ≤ daysInMonth y m then
        some (daysFromCivil (y : Int) (m : Int) (d : Int))
      else none
    | _, _, _ => none
  | _ => none

/-- Whether a string starts with `\d{4}-\d{2}-\d{2}`. -/
def hasIsoShape (l : List Char) : Bool :=
  match l with
  | y1 :: y2 :: y3 :: y4 :: '-' :: m1 :: m2 :: '-' :: d1 :: d2 :: _ =>
    [y1, y2, y3, y4, m1, m2, d1, d2].all isDigitC
  | _ => false

/-- `_parse_date`, at day granularity.  Numeric values are POSIX epoch
seconds (`datetime.fromtimestamp`, modelled in UTC); booleans are Python
`int`s; ISO-shaped strings parse year-first, others day-first. -/
def parse_date : Json → Option Int
  | .null => none
  | .bool b => some ((((if b then 1 else 0) : Rat) / 86400).floor)
  | .num q => some ((q / 86400).floor)
  | .str s =>
    if hasIsoShape s.data then parseIsoPrefix s.data else parseDayFirst s
  | .arr _ => none
  | .obj _ => none

/-! ## Key matcher -/

/-- `_find_key`: the first key of the mapping (in insertion order) whose
lower-cased name contains one of the alias tokens as a substring. -/
def find_key (obj : List (String × Json)) (keys : List String) : Option String :=
  (obj.map Prod.fst).find? (fun k => keys.any (fun token => strContains (pyLower k) token))

/-! ## Metadata dictionary operations -/

/-- Accumulated metadata: canonical key → stored JSON value (a coerced number
is stored as `Json.num`, a failed coercion as `Json.null`, matching Python's
`None`). -/
abbrev Metadata := List (String × Json)

/-- Store the result of `_coerce_float` the way Python stores it. -/
def optToJson : Option Rat → Json
  | none => Json.null
  | some q => Json.num q

/-- `d[k] = v`: overwrite in place if the key is present (Python dicts keep
the original position), else append. -/
def dictSet (d : Metadata) (k : String) (v : Json) : Metadata :=
  if (d.lookup k).isSome then d.map (fun p => if p.1 = k then (k, v) else p)
  else d ++ [(k, v)]

/-- `d.setdefault(k, v)`: insert only if the key is absent. -/
def dictSetdefault (d : Metadata) (k : String) (v : Json) : Metadata :=
  if (d.lookup k).isSome then d else d ++ [(k, v)]

/-- Split a string at its first `;` (Python `s.split(";", 1)` when `;` occurs). -/
def splitSemi (s : String) : Option (String × String) :=
  match s.data.splitOnP (· = ';') with
  | [] => none
  | [_] => none
  | first :: rest =>
    some (String.mk first, String.mk (List.intercalate [';'] rest))

/-- One step of `_parse_index_mesure`'s scan: keep the entry with the
strictly latest parseable date. -/
def indexStep (acc : Option (Int × Rat × String)) (e : Json) : Option (Int × Rat × String) :=
  match e with
  | .str s =>
    match splitSemi s with
    | none => acc
    | some (vr, dr) =>
      match coerce_float (.str vr), parse_date (.str dr) with
      | some v, some d =>
        match acc with
        | none => some (d, v, s)
        | some (bd, bv, bs) => if bd < d then some (d, v, s) else some (bd, bv, bs)
      | _, _ => acc
  | _ => acc

/-- `_parse_index_mesure`: from a list of `value;date` strings, the three
metadata fields describing the most recent entry. -/
def parse_index_mesure : Json → Metadata
  | .arr entries =>
    match entries.foldl indexStep none with
    | none => []
    | some (d, v, s) =>
      [("index_last_value", .num v), ("index_last_date", .str (isoDateStr d)),
       ("index_last_raw", .str s)]
  | _ => []

/-- The per-key body of `find_metadata`'s walk: dispatch on the normalized
key.  Metadata targets are assigned unconditionally (`metadata[target] = ...`);
only `price_m3` is guarded by absence. -/
def fmProcessKey (md : Metadata) (k : String) (v : Json) : Metadata :=
  let nk := normalize_key k
  let md1 :=
    match METADATA_KEYS.lookup nk with
    | some target =>
      if target = "index_mesure" then
        (parse_index_mesure v).foldl (fun m kv => dictSet m kv.1 kv.2) md
      else if "_m3".data.isSuffixOf target.data then dictSet md target (optToJson (coerce_float v))
      else dictSet md target v
    | none => md
  if PRICE_KEYS.contains nk && !(md1.lookup "price_m3").isSome then
    dictSet md1 "price_m3" (optToJson (coerce_float v))
  else md1

mutual

/-- The recursive walk of `find_metadata`, threading the metadata accumulator
in depth-first order. -/
def fmWalk (md : Metadata) : Json → Metadata
  | .obj kvs => fmWalkObj md kvs
  | .arr xs => fmWalkArr md xs
  | _ => md

/-- Walk the pairs of a mapping in insertion order: process the key, then
recurse into the value. -/
def fmWalkObj (md : Metadata) : List (String × Json) → Metadata
  | [] => md
  | (k, v) :: rest => fmWalkObj (fmWalk (fmProcessKey md k v) v) rest

/-- Walk the items of a sequence in order. -/
def fmWalkArr (md : Metadata) : List Json → Metadata
  | [] => md
  | v :: rest => fmWalkArr (fmWalk md v) rest

end

/-- `find_metadata`: mine one payload tree for metadata fields. -/
def find_metadata (payload : Json) : Metadata := fmWalk [] payload

/-- The metadata-merging loop of `fetch_consumption`: each payload's mined
metadata is folded in with `setdefault` (first payload to set a key wins). -/
def accumulateMetadata (md : Metadata) (payloads : List Json) : Metadata :=
  payloads.foldl
    (fun m p => (find_metadata p).foldl (fun m2 kv => dictSetdefault m2 kv.1 kv.2) m) md

/-! ## Record miner and normalizer -/

mutual

/-- Python `str(...)` of a JSON value, as far as the unit-disambiguation logic
can observe it (container reprs omit the quoting of `repr`, and numbers print
as exact rationals rather than float literals; neither difference can make a
rendering gain or lose the unit tokens `litre`/`l`/`m3`/`m^3`). -/
def pyStr : Json → String
  | .null => "None"
  | .bool true => "True"
  | .bool false => "False"
  | .num q => if q.den = 1 then toString q.num else toString q.num ++ "/" ++ toString q.den
  | .str s => s
  | .arr xs => "[" ++ pyStrList xs ++ "]"
  | .obj kvs => "\x7b" ++ pyStrObj kvs ++ "\x7d"

/-- Comma-joined renderings of sequence items. -/
def pyStrList : List Json → String
  | [] => ""
  | [x] => pyStr x
  | x :: rest => pyStr x ++ ", " ++ pyStrList rest

/-- Comma-joined renderings of mapping entries. -/
def pyStrObj : List (String × Json) → String
  | [] => ""
  | [(k, v)] => k ++ ": " ++ pyStr v
  | (k, v) :: rest => k ++ ": " ++ pyStr v ++ ", " ++ pyStrObj rest

end

/-- A candidate record emitted by `extract_records`: matched date and volume
values, the source node, and the optional cost/unit values. -/
structure RawRecord where
  date : Json
  volume : Json
  raw : Json
  cost : Option Json
  unit : Option Json

/-- The record a mapping node yields when it exposes both a date-like and a
volume-like key (empty list otherwise). -/
def nodeRecord (kvs : List (String × Json)) : List RawRecord :=
  match find_key kvs DATE_KEYS, find_key kvs VOLUME_KEYS with
  | some dk, some vk =>
    [{ date := (kvs.lookup dk).getD .null,
       volume := (kvs.lookup vk).getD .null,
       raw := .obj kvs,
       cost := (find_key kvs COST_KEYS).bind (fun ck => kvs.lookup ck),
       unit := (find_key kvs UNIT_KEYS).bind (fun uk => kvs.lookup uk) }]
  | _, _ => []

mutual

/-- The recursive walk of `extract_records`, collecting candidate records in
depth-first order; a node can both emit a record and contain nested records. -/
def erWalk : Json → List RawRecord
  | .obj kvs => nodeRecord kvs ++ erWalkObj kvs
  | .arr xs => erWalkArr xs
  | _ => []

/-- Recurse into every value of a mapping. -/
def erWalkObj : List (String × Json) → List RawRecord
  | [] => []
  | (_, v) :: rest => erWalk v ++ erWalkObj rest

/-- Recurse into every item of a sequence. -/
def erWalkArr : List Json → List RawRecord
  | [] => []
  | v :: rest => erWalk v ++ erWalkArr rest

end

/-- `extract_records`. -/
def extract_records (payload : Json) : List RawRecord := erWalk payload

/-- A normalized daily record.  The Python dict also carries the raw source
node for traceability; no downstream computation reads it, so it is dropped
here.  `date` is the parse of the record's ISO date string (`none` models a
string `datetime.fromisoformat` rejects). -/
structure NRecord where
  date : Option Int
  liters : Rat
  m3 : Rat
  euros : Option Rat
deriving DecidableEq, Repr

/-- The date candidate `normalize_record` resolves: a truthy `DATE_INDEX`
field of the source node takes precedence over the matched date value. -/
def dateCandidate (record : RawRecord) : Json :=
  match record.raw with
  | .obj kvs =>
    match kvs.lookup "DATE_INDEX" with
    | some v => if jsonTruthy v then v else record.date
    | none => record.date
  | _ => record.date

/-- The lower-cased unit text `str(record.get("unit", "")).lower()`. -/
def unitText (record : RawRecord) : String :=
  pyLower (pyStr (record.unit.getD (Json.str "")))

/-- Unit disambiguation of `normalize_record`: the pair `(liters, m3)`
produced for a coerced volume `v` under unit text `u`. -/
def litersAndM3 (u : String) (v : Rat) : Rat × Rat :=
  if strContains u "litre" || (u = "l" || u = "litres" || u = "litre") then (v, v / 1000)
  else if strContains u "m3" || strContains u "m^3" then (v * 1000, v)
  else if 50 < v then (v, v / 1000)
  else (v * 1000, v)

/-- `normalize_record`: reject when date or volume fails to coerce, otherwise
produce the canonical record, deriving a missing cost from the tariff price. -/
def normalize_record (record : RawRecord) (price_m3 : Option Rat) : Option NRecord :=
  match parse_date (dateCandidate record), coerce_float record.volume with
  | some d, some v =>
    let lm := litersAndM3 (unitText record) v
    let cost0 : Option Rat :=
      match coerce_float ((record.cost).getD Json.null) with
      | some c => some c
      | none => price_m3.map (fun p => lm.2 * p)
    some { date := some d, liters := lm.1, m3 := lm.2, euros := cost0.map round2 }
  | _, _ => none

/-! ## Aggregator -/

/-- The dated-record pairs `aggregate_last_days` builds first: records whose
date string parses, paired with the parsed date. -/
def datedRecords (records : List NRecord) : List (Int × NRecord) :=
  records.filterMap (fun r => r.date.map (fun d => (d, r)))

/-- Python `max` over a list of dates (first argument wins ties; value on the
empty list is irrelevant — the code guards against it). -/
def maxDate : List Int → Int
  | [] => 0
  | d :: rest => rest.foldl max d

/-- `end_date`: maximum date across all pre-filter records. -/
def endDate (records : List NRecord) : Int :=
  maxDate ((datedRecords records).map Prod.fst)

/-- `cutoff = end_date - timedelta(days=days - 1)`. -/
def cutoffOf (records : List NRecord) (days : Int) : Int :=
  endDate records - (days - 1)

/-- The window filter with explicit bounds `c ≤ date ≤ e`. -/
def filteredWith (c e : Int) (records : List NRecord) : List NRecord :=
  (datedRecords records).filterMap
    (fun p => if c ≤ p.1 ∧ p.1 ≤ e then some p.2 else none)

/-- `filtered`: records inside the trailing window. -/
def filteredOf (records : List NRecord) (days : Int) : List NRecord :=
  filteredWith (cutoffOf records days) (endDate records) records

/-- The deduplication key: date plus liters/m3/cost rounded to 6 decimals
(`None` cost only equals `None`). -/
def dkeyOf (r : NRecord) : Option Int × Rat × Rat × Option Rat :=
  (r.date, round6 r.liters, round6 r.m3, r.euros.map round6)

/-- The dedup scan with its `seen` set: keep the first occurrence of each key. -/
def dedupAux (seen : List (Option Int × Rat × Rat × Option Rat)) :
    List NRecord → List NRecord
  | [] => []
  | r :: rest =>
    if dkeyOf r ∈ seen then dedupAux seen rest
    else r :: dedupAux (dkeyOf r :: seen) rest

/-- `deduped`: the filtered window with duplicate records removed, in
encounter order. -/
def dedupedOf (records : List NRecord) (days : Int) : List NRecord :=
  dedupAux [] (filteredOf records days)

/-- `totals["total_liters"]`. -/
def totalLitersOf (records : List NRecord) (days : Int) : Rat :=
  ((dedupedOf records days).map NRecord.liters).sum

/-- `totals["total_m3"]`. -/
def totalM3Of (records : List NRecord) (days : Int) : Rat :=
  ((dedupedOf records days).map NRecord.m3).sum

/-- `totals["total_euros"]`: costs summed over records that have one, then
rounded to 2 decimals. -/
def totalEurosOf (records : List NRecord) (days : Int) : Rat :=
  round2 (((dedupedOf records days).filterMap NRecord.euros).sum)

/-- `day_count = len(deduped)`. -/
def dayCountOf (records : List NRecord) (days : Int) : Nat :=
  (dedupedOf records days).length

/-- `avg_daily_liters` (0 when the deduplicated set is empty). -/
def avgDailyLitersOf (records : List NRecord) (days : Int) : Rat :=
  if dayCountOf records days = 0 then 0
  else totalLitersOf records days / (dayCountOf records days : Rat)

/-- `avg_daily_m3`. -/
def avgDailyM3Of (records : List NRecord) (days : Int) : Rat :=
  if dayCountOf records days = 0 then 0
  else totalM3Of records days / (dayCountOf records days : Rat)

/-- `avg_daily_euros` (rounded to 2 decimals; `x or 0` only renames `0.0`). -/
def avgDailyEurosOf (records : List NRecord) (days : Int) : Rat :=
  round2 (if dayCountOf records days = 0 then 0
          else totalEurosOf records days / (dayCountOf records days : Rat))

/-- The date key Python's `max(deduped, key=...)` and `sorted(deduped, ...)`
compare; every deduplicated record has a parsed date, so the default never
matters. -/
def dk0 (r : NRecord) : Int := r.date.getD 0

/-- `max(deduped, key=lambda r: r["date"], default=None)`: first record
attaining the maximum date. -/
def lastRec : List NRecord → Option NRecord
  | [] => none
  | r :: rest => some (rest.foldl (fun best x => if dk0 best < dk0 x then x else best) r)

/-- The `(over_ratio, over_level)` pair of the overconsumption classifier. -/
def overPairOf (records : List NRecord) (days : Int) : Option Rat × String :=
  match lastRec (dedupedOf records days) with
  | none => (none, "unknown")
  | some last =>
    if 0 < avgDailyLitersOf records days then
      let ratioLast := last.liters / avgDailyLitersOf records days
      (some ratioLast,
       if 3 ≤ ratioLast then "critical" else if 2 ≤ ratioLast then "high" else "normal")
    else (none, "unknown")

/-- `week_start`: the Monday of `end_date`'s week. -/
def weekStartOf (records : List NRecord) : Int :=
  endDate records - weekdayOf (endDate records)

/-- The deduplicated records inside the week-to-date window. -/
def weekRecordsOf (records : List NRecord) (days : Int) : List NRecord :=
  (dedupedOf records days).filter
    (fun r => decide (weekStartOf records ≤ dk0 r ∧ dk0 r ≤ endDate records))

/-- `month_start`: day 1 of `end_date`'s month (`end_date.replace(day=1)`). -/
def monthStartOf (records : List NRecord) : Int :=
  endDate records - ((civilFromDays (endDate records)).2.2 - 1)

/-- The deduplicated records inside the month-to-date window. -/
def monthRecordsOf (records : List NRecord) (days : Int) : List NRecord :=
  (dedupedOf records days).filter
    (fun r => decide (monthStartOf records ≤ dk0 r ∧ dk0 r ≤ endDate records))

/-- `days_in_month` of `end_date`'s month. -/
def daysInMonthOf (records : List NRecord) : Int :=
  daysInMonth (civilFromDays (endDate records)).1 (civilFromDays (endDate records)).2.1

/-- `mtd_m3`. -/
def mtdM3Of (records : List NRecord) (days : Int) : Rat :=
  ((monthRecordsOf records days).map NRecord.m3).sum

/-- `estimate_month_euros`: monthly cost projection, only when a tariff price
and at least one month-to-date record exist. -/
def estimateMonthEurosOf (records : List NRecord) (days : Int) (price : Option Rat) :
    Option Rat :=
  match price with
  | none => none
  | some p =>
    if (monthRecordsOf records days).length = 0 then none
    else some (round2 (mtdM3Of records days / ((monthRecordsOf records days).length : Rat)
      * (daysInMonthOf records : Rat) * p))

/-- The `totals` block. -/
structure Totals where
  total_liters : Rat
  total_m3 : Rat
  total_euros : Rat
deriving DecidableEq, Repr

/-- The `analytics` block. -/
structure Analytics where
  avg_daily_liters : Rat
  avg_daily_m3 : Rat
  avg_daily_euros : Rat
  week_start : Int
  week_end : Int
  wtd_liters : Rat
  wtd_m3 : Rat
  wtd_euros : Rat
  week_day_count : Nat
  month_start : Int
  month_end : Int
  mtd_liters : Rat
  mtd_m3 : Rat
  mtd_euros : Rat
  month_day_count : Nat
  days_in_month : Int
  estimate_month_euros : Option Rat
  last_date : Option Int
  over_ratio_opt : Option Rat
  overconsumption_level : String
deriving DecidableEq, Repr

/-- The analytics block `aggregate_last_days` assembles in its non-empty
branch. -/
def analyticsOf (records : List NRecord) (days : Int) (price : Option Rat) : Analytics where
  avg_daily_liters := avgDailyLitersOf records days
  avg_daily_m3 := avgDailyM3Of records days
  avg_daily_euros := avgDailyEurosOf records days
  week_start := weekStartOf records
  week_end := endDate records
  wtd_liters := ((weekRecordsOf records days).map NRecord.liters).sum
  wtd_m3 := ((weekRecordsOf records days).map NRecord.m3).sum
  wtd_euros := round2 (((weekRecordsOf records days).filterMap NRecord.euros).sum)
  week_day_count := (weekRecordsOf records days).length
  month_start := monthStartOf records
  month_end := endDate records
  mtd_liters := ((monthRecordsOf records days).map NRecord.liters).sum
  mtd_m3 := mtdM3Of records days
  mtd_euros := round2 (((monthRecordsOf records days).filterMap NRecord.euros).sum)
  month_day_count := (monthRecordsOf records days).length
  days_in_month := daysInMonthOf records
  estimate_month_euros := estimateMonthEurosOf records days price
  last_date := (lastRec (dedupedOf records days)).bind NRecord.date
  over_ratio_opt := (overPairOf records days).1
  overconsumption_level := (overPairOf records days).2

/-- The document `aggregate_last_days` returns.  `fromDate`/`toDate` model the
`from`/`to` ISO strings at day granularity; `analytics = none` models the
empty `{}` analytics dict of the no-dated-records branch. -/
structure AggregateResult where
  days : Int
  fromDate : Option Int
  toDate : Option Int
  totals : Totals
  price_m3 : Option Rat
  metadata : Metadata
  analytics : Option Analytics
  daily : List NRecord

/-- The order `sorted(deduped, key=lambda r: r["date"])` sorts by. -/
def dateLe (a b : NRecord) : Prop := dk0 a ≤ dk0 b

instance : DecidableRel dateLe := fun a b => inferInstanceAs (Decidable (dk0 a ≤ dk0 b))

instance : IsTotal NRecord dateLe := ⟨fun a b => le_total (dk0 a) (dk0 b)⟩

instance : IsTrans NRecord dateLe := ⟨fun _ _ _ h1 h2 => le_trans h1 h2⟩

/-- `aggregate_last_days`. -/
def aggregate_last_days (records : List NRecord) (days : Int) (price : Option Rat)
    (md : Metadata) : AggregateResult :=
  if (datedRecords records).isEmpty then
    { days := days, fromDate := none, toDate := none,
      totals := { total_liters := 0, total_m3 := 0, total_euros := 0 },
      price_m3 := price, metadata := md, analytics := none, daily := [] }
  else
    { days := days
      fromDate := some (cutoffOf records days)
      toDate := some (endDate records)
      totals :=
        { total_liters := totalLitersOf records days
          total_m3 := totalM3Of records days
          total_euros := totalEurosOf records days }
      price_m3 := price
      metadata := md
      analytics := some (analyticsOf records days price)
      daily := List.insertionSort dateLe (dedupedOf records days) }

/-! ## Supporting lemmas -/

theorem mem_datedRecords {records : List NRecord} {d : Int} {r : NRecord} :
    (d, r) ∈ datedRecords records ↔ r ∈ records ∧ r.date = some d := by
  simp only [datedRecords, List.mem_filterMap, Option.map_eq_some']
  constructor
  · rintro ⟨a, ha, d', hd', heq⟩
    cases heq
    exact ⟨ha, hd'⟩
  · rintro ⟨hr, hd⟩
    exact ⟨r, hr, d, hd, rfl⟩

theorem datedRecords_append (l1 l2 : List NRecord) :
    datedRecords (l1 ++ l2) = datedRecords l1 ++ datedRecords l2 := by
  simp [datedRecords, List.filterMap_append]

theorem datedRecords_eq_nil_iff {records : List NRecord} :
    datedRecords records = [] ↔ ∀ r ∈ records, r.date = none := by
  simp only [datedRecords, List.filterMap_eq_nil]
  constructor
  · intro h r hr
    have := h r hr
    cases hd : r.date with
    | none => rfl
    | some d => rw [hd] at this; simp at this
  · intro h r hr
    rw [h r hr]; rfl

theorem le_foldl_max (a : Int) (l : List Int) : a ≤ l.foldl max a := by
  induction l generalizing a with
  | nil => exact le_refl a
  | cons b t ih => exact le_trans (le_max_left a b) (ih (max a b))

theorem mem_le_foldl_max {x : Int} {l : List Int} (a : Int) (h : x ∈ l) :
    x ≤ l.foldl max a := by
  induction l generalizing a with
  | nil => cases h
  | cons b t ih =>
    cases h with
    | head => exact le_trans (le_max_right a x) (le_foldl_max _ t)
    | tail _ h' => exact ih _ h'

theorem foldl_max_mem (a : Int) (l : List Int) : l.foldl max a = a ∨ l.foldl max a ∈ l := by
  induction l generalizing a with
  | nil => exact Or.inl rfl
  | cons b t ih =>
    rcases ih (max a b) with h | h
    · rw [List.foldl_cons, h]
      rcases max_choice a b with h' | h'
      · exact Or.inl h'
      · exact Or.inr (by rw [h']; exact List.mem_cons_self _ _)
    · exact Or.inr (List.mem_cons_of_mem _ h)

theorem foldl_max_absorb {a : Int} {l : List Int} (h : ∀ x ∈ l, x ≤ a) :
    l.foldl max a = a := by
  induction l with
  | nil => rfl
  | cons b t ih =>
    rw [List.foldl_cons, max_eq_left (h b (List.mem_cons_self _ _))]
    exact ih (fun x hx => h x (List.mem_cons_of_mem _ hx))

theorem maxDate_mem {l : List Int} (h : l ≠ []) : maxDate l ∈ l := by
  cases l with
  | nil => exact absurd rfl h
  | cons d t =>
    rcases foldl_max_mem d t with h' | h'
    · rw [maxDate, h']; exact List.mem_cons_self _ _
    · exact List.mem_cons_of_mem _ h'

theorem le_maxDate {x : Int} {l : List Int} (h : x ∈ l) : x ≤ maxDate l := by
  cases l with
  | nil => cases h
  | cons d t =>
    cases h with
    | head => exact le_foldl_max x t
    | tail _ h' => exact mem_le_foldl_max d h'

theorem maxDate_append_absorb {l1 l2 : List Int} (h1 : l1 ≠ [])
    (h : ∀ x ∈ l2, x ∈ l1) : maxDate (l1 ++ l2) = maxDate l1 := by
  cases l1 with
  | nil => exact absurd rfl h1
  | cons a t =>
    have heq : maxDate (a :: t ++ l2) = (t ++ l2).foldl max a := rfl
    rw [heq, List.foldl_append]
    exact foldl_max_absorb (fun x hx => le_maxDate (h x hx))

theorem endDate_is_max {records : List NRecord} (h : datedRecords records ≠ []) :
    (∃ r ∈ records, r.date = some (endDate records)) ∧
      ∀ r ∈ records, ∀ d, r.date = some d → d ≤ endDate records := by
  constructor
  · have hmem : endDate records ∈ (datedRecords records).map Prod.fst := by
      apply maxDate_mem
      intro hnil
      exact h (List.map_eq_nil.mp hnil)
    obtain ⟨⟨d, r⟩, hp, hfst⟩ := List.mem_map.mp hmem
    obtain ⟨hr, hd⟩ := mem_datedRecords.mp hp
    simp only at hfst
    exact ⟨r, hr, by rw [hd, hfst]⟩
  · intro r hr d hd
    apply le_maxDate
    exact List.mem_map.mpr ⟨(d, r), mem_datedRecords.mpr ⟨hr, hd⟩, rfl⟩

theorem mem_filteredWith {c e : Int} {records : List NRecord} {r : NRecord} :
    r ∈ filteredWith c e records ↔
      ∃ d, r.date = some d ∧ r ∈ records ∧ c ≤ d ∧ d ≤ e := by
  simp only [filteredWith, List.mem_filterMap]
  constructor
  · rintro ⟨⟨d, r'⟩, hp, hite⟩
    by_cases hb : c ≤ d ∧ d ≤ e
    · rw [if_pos hb] at hite
      cases hite
      obtain ⟨hr, hd⟩ := mem_datedRecords.mp hp
      exact ⟨d, hd, hr, hb⟩
    · rw [if_neg hb] at hite; cases hite
  · rintro ⟨d, hd, hr, hb⟩
    exact ⟨(d, r), mem_datedRecords.mpr ⟨hr, hd⟩, by rw [if_pos hb]⟩

theorem filteredWith_append (c e : Int) (l1 l2 : List NRecord) :
    filteredWith c e (l1 ++ l2) = filteredWith c e l1 ++ filteredWith c e l2 := by
  simp [filteredWith, datedRecords_append, List.filterMap_append]

theorem mem_of_mem_dedupAux {seen : List (Option Int × Rat × Rat × Option Rat)}
    {l : List NRecord} {x : NRecord} (h : x ∈ dedupAux seen l) : x ∈ l := by
  induction l generalizing seen with
  | nil => cases h
  | cons r t ih =>
    rw [dedupAux] at h
    split at h
    · exact List.mem_cons_of_mem _ (ih h)
    · cases h with
      | head => exact List.mem_cons_self _ _
      | tail _ h' => exact List.mem_cons_of_mem _ (ih h')

theorem dedupAux_eq_nil_of_seen {seen : List (Option Int × Rat × Rat × Option Rat)}
    {l : List NRecord} (h : ∀ y ∈ l, dkeyOf y ∈ seen) : dedupAux seen l = [] := by
  induction l with
  | nil => rfl
  | cons r t ih =>
    rw [dedupAux, if_pos (h r (List.mem_cons_self _ _))]
    exact ih (fun y hy => h y (List.mem_cons_of_mem _ hy))

theorem dedupAux_append_absorb {seen : List (Option Int × Rat × Rat × Option Rat)}
    {xs ys : List NRecord}
    (h : ∀ y ∈ ys, dkeyOf y ∈ seen ∨ dkeyOf y ∈ xs.map dkeyOf) :
    dedupAux seen (xs ++ ys) = dedupAux seen xs := by
  induction xs generalizing seen with
  | nil =>
    simp only [List.nil_append, dedupAux]
    exact dedupAux_eq_nil_of_seen (fun y hy => by
      rcases h y hy with h' | h'
      · exact h'
      · simp at h')
  | cons r t ih =>
    simp only [List.cons_append, dedupAux]
    by_cases hk : dkeyOf r ∈ seen
    · rw [if_pos hk, if_pos hk]
      exact ih (fun y hy => by
        rcases h y hy with h' | h'
        · exact Or.inl h'
        · rcases List.mem_map.mp h' with ⟨z, hz, hzk⟩
          cases hz with
          | head => exact Or.inl (hzk ▸ hk)
          | tail _ hz' => exact Or.inr (List.mem_map.mpr ⟨z, hz', hzk⟩))
    · rw [if_neg hk, if_neg hk]
      congr 1
      exact ih (fun y hy => by
        rcases h y hy with h' | h'
        · exact Or.inl (List.mem_cons_of_mem _ h')
        · rcases List.mem_map.mp h' with ⟨z, hz, hzk⟩
          cases hz with
          | head => exact Or.inl (hzk ▸ List.mem_cons_self _ _)
          | tail _ hz' => exact Or.inr (List.mem_map.mpr ⟨z, hz', hzk⟩))

theorem round2_zero : round2 0 = 0 := by with_unfolding_all rfl

theorem isEmpty_false_of_ne_nil {l : List (Int × NRecord)} (h : l ≠ []) :
    l.isEmpty = false := by
  cases l with
  | nil => exact absurd rfl h
  | cons a t => rfl

/-! ## Claim theorems -/

/-- C8: for every input record list in which no record parses to a valid date
(including the empty list), `aggregate_last_days` returns normally with the
requested `days` echoed back, `from` and `to` null, all three totals zero,
empty analytics and an empty `daily` sequence. -/
theorem aggregate_empty_contract (records : List NRecord) (days : Int)
    (price : Option Rat) (md : Metadata) (h : ∀ r ∈ records, r.date = none) :
    (aggregate_last_days records days price md).days = days ∧
    (aggregate_last_days records days price md).fromDate = none ∧
    (aggregate_last_days records days price md).toDate = none ∧
    (aggregate_last_days records days price md).totals =
      { total_liters := 0, total_m3 := 0, total_euros := 0 } ∧
    (aggregate_last_days records days price md).analytics = none ∧
    (aggregate_last_days records days price md).daily = [] := by
  have hnil : datedRecords records = [] := datedRecords_eq_nil_iff.mpr h
  have hb : (datedRecords records).isEmpty = true := by rw [hnil]; rfl
  simp [aggregate_last_days, hb]

/-- C8 witness: a concrete record list with an unparseable date. -/
theorem aggregate_empty_contract_witness :
    (∀ r ∈ [({ date := none, liters := 5, m3 := 1, euros := none } : NRecord)],
      r.date = none) ∧
    (aggregate_last_days [{ date := none, liters := 5, m3 := 1, euros := none }]
      40 none []).daily = [] :=
  ⟨by decide,
   (aggregate_empty_contract [{ date := none, liters := 5, m3 := 1, euros := none }]
     40 none [] (by decide)).2.2.2.2.2⟩

/-- C2: whenever some record carries a parseable date, the aggregate's `to` is
the maximum date over all pre-filter input records, `from` is `to − (days−1)`,
and every record of `daily` has a date `d` with `from ≤ d ≤ to`. -/
theorem aggregate_window_invariant (records : List NRecord) (days : Int)
    (price : Option Rat) (md : Metadata) (h : datedRecords records ≠ []) :
    ∃ t, (aggregate_last_days records days price md).toDate = some t ∧
      (∃ r ∈ records, r.date = some t) ∧
      (∀ r ∈ records, ∀ d, r.date = some d → d ≤ t) ∧
      (aggregate_last_days records days price md).fromDate = some (t - (days - 1)) ∧
      ∀ r ∈ (aggregate_last_days records days price md).daily,
        ∃ d, r.date = some d ∧ t - (days - 1) ≤ d ∧ d ≤ t := by
  have hb := isEmpty_false_of_ne_nil h
  refine ⟨endDate records, ?_, (endDate_is_max h).1, (endDate_is_max h).2, ?_, ?_⟩
  · simp [aggregate_last_days, hb]
  · simp [aggregate_last_days, hb, cutoffOf]
  · intro r hr
    simp only [aggregate_last_days, hb, Bool.false_eq_true, if_false] at hr
    have hr2 : r ∈ dedupedOf records days :=
      (List.perm_insertionSort dateLe (dedupedOf records days)).mem_iff.mp hr
    have hr3 : r ∈ filteredOf records days := mem_of_mem_dedupAux hr2
    have hr4 : r ∈ filteredWith (cutoffOf records days) (endDate records) records := hr3
    obtain ⟨d, hd, _, hcd, hde⟩ := mem_filteredWith.mp hr4
    exact ⟨d, hd, by simpa [cutoffOf] using hcd, hde⟩

/-- C2 witness: two dated records, a two-day window. -/
theorem aggregate_window_invariant_witness :
    datedRecords [({ date := some 19724, liters := 100, m3 := 1/10, euros := none } : NRecord)]
      ≠ [] ∧
    ∃ t, (aggregate_last_days
        [({ date := some 19724, liters := 100, m3 := 1/10, euros := none } : NRecord)]
        2 none []).toDate = some t ∧
      (∃ r ∈ [({ date := some 19724, liters := 100, m3 := 1/10, euros := none } : NRecord)],
        r.date = some t) ∧
      (∀ r ∈ [({ date := some 19724, liters := 100, m3 := 1/10, euros := none } : NRecord)],
        ∀ d, r.date = some d → d ≤ t) ∧
      (aggregate_last_days
        [({ date := some 19724, liters := 100, m3 := 1/10, euros := none } : NRecord)]
        2 none []).fromDate = some (t - (2 - 1)) ∧
      ∀ r ∈ (aggregate_last_days
        [({ date := some 19724, liters := 100, m3 := 1/10, euros := none } : NRecord)]
        2 none []).daily,
        ∃ d, r.date = some d ∧ t - (2 - 1) ≤ d ∧ d ≤ t :=
  ⟨by decide,
   aggregate_window_invariant
     [({ date := some 19724, liters := 100, m3 := 1/10, euros := none } : NRecord)]
     2 none [] (by decide)⟩

/-- C10: for any window length, in particular zero or negative, the aggregator
is total; whenever the filtered-and-deduplicated window is empty — which
happens for every `days ≤ 0` — all averages are 0, the overconsumption level
is `unknown` with no ratio, the week- and month-to-date counts are 0, the
monthly estimate is none and `daily` is empty. -/
theorem aggregate_degenerate_window_safe (records : List NRecord) (days : Int)
    (price : Option Rat) (md : Metadata) (h : datedRecords records ≠ [])
    (hdays : days ≤ 0) :
    ∃ a, (aggregate_last_days records days price md).analytics = some a ∧
      a.avg_daily_liters = 0 ∧ a.avg_daily_m3 = 0 ∧ a.avg_daily_euros = 0 ∧
      a.overconsumption_level = "unknown" ∧ a.over_ratio_opt = none ∧
      a.week_day_count = 0 ∧ a.month_day_count = 0 ∧
      a.estimate_month_euros = none ∧
      (aggregate_last_days records days price md).daily = [] := by
  have hb := isEmpty_false_of_ne_nil h
  have hfil : filteredOf records days = [] := by
    rw [filteredOf, filteredWith]
    apply List.filterMap_eq_nil.mpr
    rintro ⟨d, r⟩ hp
    apply if_neg
    rintro ⟨h1, h2⟩
    simp only [cutoffOf] at h1
    omega
  have hded : dedupedOf records days = [] := by rw [dedupedOf, hfil]; rfl
  refine ⟨analyticsOf records days price, ?_, ?_, ?_, ?_, ?_, ?_, ?_, ?_, ?_, ?_⟩
  · simp [aggregate_last_days, hb]
  · simp [analyticsOf, avgDailyLitersOf, dayCountOf, hded]
  · simp [analyticsOf, avgDailyM3Of, dayCountOf, hded]
  · simp only [analyticsOf]
    rw [avgDailyEurosOf, dayCountOf, hded]
    simp [round2_zero]
  · simp [analyticsOf, overPairOf, hded, lastRec]
  · simp [analyticsOf, overPairOf, hded, lastRec]
  · simp [analyticsOf, weekRecordsOf, hded]
  · simp [analyticsOf, monthRecordsOf, hded]
  · cases price with
    | none => simp [analyticsOf, estimateMonthEurosOf]
    | some p => simp [analyticsOf, estimateMonthEurosOf, monthRecordsOf, hded]
  · simp [aggregate_last_days, hb, hded]

/-- C10 witness: one dated record and a zero-length window. -/
theorem aggregate_degenerate_window_safe_witness :
    datedRecords [({ date := some 0, liters := 100, m3 := 1/10, euros := none } : NRecord)]
      ≠ [] ∧ (0 : Int) ≤ 0 ∧
    ∃ a, (aggregate_last_days
        [({ date := some 0, liters := 100, m3 := 1/10, euros := none } : NRecord)]
        0 none []).analytics = some a ∧
      a.avg_daily_liters = 0 ∧ a.avg_daily_m3 = 0 ∧ a.avg_daily_euros = 0 ∧
      a.overconsumption_level = "unknown" ∧ a.over_ratio_opt = none ∧
      a.week_day_count = 0 ∧ a.month_day_count = 0 ∧
      a.estimate_month_euros = none ∧
      (aggregate_last_days
        [({ date := some 0, liters := 100, m3 := 1/10, euros := none } : NRecord)]
        0 none []).daily = [] :=
  ⟨by decide, le_refl 0,
   aggregate_degenerate_window_safe
     [({ date := some 0, liters := 100, m3 := 1/10, euros := none } : NRecord)]
     0 none [] (by decide) (le_refl 0)⟩

theorem foldl_last_mem (r : NRecord) (l : List NRecord) :
    l.foldl (fun best x => if dk0 best < dk0 x then x else best) r = r ∨
      l.foldl (fun best x => if dk0 best < dk0 x then x else best) r ∈ l := by
  induction l generalizing r with
  | nil => exact Or.inl rfl
  | cons b t ih =>
    rw [List.foldl_cons]
    rcases ih (if dk0 r < dk0 b then b else r) with h | h
    · rw [h]
      by_cases hc : dk0 r < dk0 b
      · rw [if_pos hc]; exact Or.inr (List.mem_cons_self _ _)
      · rw [if_neg hc]; exact Or.inl rfl
    · exact Or.inr (List.mem_cons_of_mem _ h)

theorem dk0_le_foldl_last (r : NRecord) (l : List NRecord) :
    dk0 r ≤ dk0 (l.foldl (fun best x => if dk0 best < dk0 x then x else best) r) := by
  induction l generalizing r with
  | nil => exact le_refl _
  | cons b t ih =>
    rw [List.foldl_cons]
    refine le_trans ?_ (ih _)
    by_cases hc : dk0 r < dk0 b
    · rw [if_pos hc]; exact le_of_lt hc
    · rw [if_neg hc]

theorem mem_dk0_le_foldl_last {y : NRecord} {l : List NRecord} (r : NRecord) (h : y ∈ l) :
    dk0 y ≤ dk0 (l.foldl (fun best x => if dk0 best < dk0 x then x else best) r) := by
  induction l generalizing r with
  | nil => cases h
  | cons b t ih =>
    rw [List.foldl_cons]
    cases h with
    | head =>
      refine le_trans ?_ (dk0_le_foldl_last _ t)
      by_cases hc : dk0 r < dk0 y
      · rw [if_pos hc]
      · rw [if_neg hc]; exact le_of_not_lt hc
    | tail _ h' => exact ih _ h'

theorem lastRec_mem {l : List NRecord} {x : NRecord} (h : lastRec l = some x) : x ∈ l := by
  cases l with
  | nil => cases h
  | cons r t =>
    rw [lastRec, Option.some.injEq] at h
    rcases foldl_last_mem r t with h' | h'
    · rw [← h, h']; exact List.mem_cons_self _ _
    · rw [← h]; exact List.mem_cons_of_mem _ h'

theorem lastRec_max {l : List NRecord} {x : NRecord} (h : lastRec l = some x) :
    ∀ y ∈ l, dk0 y ≤ dk0 x := by
  cases l with
  | nil => cases h
  | cons r t =>
    rw [lastRec, Option.some.injEq] at h
    intro y hy
    cases hy with
    | head => rw [← h]; exact dk0_le_foldl_last _ t
    | tail _ hy' => rw [← h]; exact mem_dk0_le_foldl_last _ hy'

/-- C6: whenever the aggregate has an analytics block, the overconsumption
fields satisfy: if the deduplicated window has a maximum-date record `last`
(the first such record, as Python's `max` picks it) and the average daily
liters are positive, the ratio is `last.liters / avg` and the level is
`critical` for ratio ≥ 3, `high` for 2 ≤ ratio < 3 and `normal` for
ratio < 2; if the window is empty or the average is not positive, the level
is `unknown` and the ratio is none. -/
theorem overconsumption_classification (records : List NRecord) (days : Int)
    (price : Option Rat) (md : Metadata) (h : datedRecords records ≠ []) :
    ∃ a, (aggregate_last_days records days price md).analytics = some a ∧
      (∀ last, lastRec (dedupedOf records days) = some last →
        last ∈ dedupedOf records days ∧
        (∀ y ∈ dedupedOf records days, dk0 y ≤ dk0 last) ∧
        (0 < avgDailyLitersOf records days →
          a.over_ratio_opt = some (last.liters / avgDailyLitersOf records days) ∧
          (3 ≤ last.liters / avgDailyLitersOf records days →
            a.overconsumption_level = "critical") ∧
          (2 ≤ last.liters / avgDailyLitersOf records days →
            last.liters / avgDailyLitersOf records days < 3 →
            a.overconsumption_level = "high") ∧
          (last.liters / avgDailyLitersOf records days < 2 →
            a.overconsumption_level = "normal"))) ∧
      ((dedupedOf records days = [] ∨ avgDailyLitersOf records days ≤ 0) →
        a.over_ratio_opt = none ∧ a.overconsumption_level = "unknown") := by
  have hb := isEmpty_false_of_ne_nil h
  refine ⟨analyticsOf records days price, by simp [aggregate_last_days, hb], ?_, ?_⟩
  · intro last hlast
    refine ⟨lastRec_mem hlast, lastRec_max hlast, ?_⟩
    intro hpos
    have hover : overPairOf records days =
        (some (last.liters / avgDailyLitersOf records days),
         if 3 ≤ last.liters / avgDailyLitersOf records days then "critical"
         else if 2 ≤ last.liters / avgDailyLitersOf records days then "high"
         else "normal") := by
      simp only [overPairOf, hlast]
      rw [if_pos hpos]
    refine ⟨?_, ?_, ?_, ?_⟩
    · show (overPairOf records days).1 = _
      rw [hover]
    · intro h3
      show (overPairOf records days).2 = _
      rw [hover]
      simp only [if_pos h3]
    · intro h2 h3
      show (overPairOf records days).2 = _
      rw [hover]
      simp only
      rw [if_neg (not_le.mpr h3), if_pos h2]
    · intro h2
      show (overPairOf records days).2 = _
      rw [hover]
      simp only
      rw [if_neg (not_le.mpr (lt_trans h2 (by norm_num))), if_neg (not_le.mpr h2)]
  · rintro (hnil | hle)
    · constructor
      · show (overPairOf records days).1 = none
        simp only [overPairOf, hnil, lastRec]
      · show (overPairOf records days).2 = "unknown"
        simp only [overPairOf, hnil, lastRec]
    · cases hl : lastRec (dedupedOf records days) with
      | none =>
        constructor
        · show (overPairOf records days).1 = none
          simp only [overPairOf, hl]
        · show (overPairOf records days).2 = "unknown"
          simp only [overPairOf, hl]
      | some last =>
        constructor
        · show (overPairOf records days).1 = none
          simp only [overPairOf, hl]
          rw [if_neg (not_lt.mpr hle)]
        · show (overPairOf records days).2 = "unknown"
          simp only [overPairOf, hl]
          rw [if_neg (not_lt.mpr hle)]

/-- A one-record list used to witness the overconsumption classifier. -/
def witRecsC6 : List NRecord := [{ date := some 0, liters := 100, m3 := 1/10, euros := none }]

/-- C6 witness: one record, window 1, average 100 > 0. -/
theorem overconsumption_classification_witness :
    datedRecords witRecsC6 ≠ [] ∧
    ∃ a, (aggregate_last_days witRecsC6 1 none []).analytics = some a ∧
      (∀ last, lastRec (dedupedOf witRecsC6 1) = some last →
        last ∈ dedupedOf witRecsC6 1 ∧
        (∀ y ∈ dedupedOf witRecsC6 1, dk0 y ≤ dk0 last) ∧
        (0 < avgDailyLitersOf witRecsC6 1 →
          a.over_ratio_opt = some (last.liters / avgDailyLitersOf witRecsC6 1) ∧
          (3 ≤ last.liters / avgDailyLitersOf witRecsC6 1 →
            a.overconsumption_level = "critical") ∧
          (2 ≤ last.liters / avgDailyLitersOf witRecsC6 1 →
            last.liters / avgDailyLitersOf witRecsC6 1 < 3 →
            a.overconsumption_level = "high") ∧
          (last.liters / avgDailyLitersOf witRecsC6 1 < 2 →
            a.overconsumption_level = "normal"))) ∧
      ((dedupedOf witRecsC6 1 = [] ∨ avgDailyLitersOf witRecsC6 1 ≤ 0) →
        a.over_ratio_opt = none ∧ a.overconsumption_level = "unknown") :=
  ⟨by decide, overconsumption_classification witRecsC6 1 none [] (by decide)⟩

/-- C4: every successfully normalized record satisfies `m3 = liters / 1000`
exactly (in the exact-rational semantics of the embedding), in every branch of
the unit disambiguation. -/
theorem normalized_m3_eq_liters_div_1000 (record : RawRecord) (price : Option Rat)
    (r : NRecord) (h : normalize_record record price = some r) :
    r.m3 = r.liters / 1000 := by
  rw [normalize_record] at h
  cases hd : parse_date (dateCandidate record) with
  | none => rw [hd] at h; cases h
  | some d =>
    cases hv : coerce_float record.volume with
    | none => rw [hd, hv] at h; cases h
    | some v =>
      rw [hd, hv] at h
      simp only [Option.some.injEq] at h
      have hl : r.liters = (litersAndM3 (unitText record) v).1 := by rw [← h]
      have hm : r.m3 = (litersAndM3 (unitText record) v).2 := by rw [← h]
      rw [hl, hm, litersAndM3]
      split_ifs with h1 h2 h3
      · simp
      · field_simp
      · simp
      · field_simp

/-- C4 witness: a unit-less record with volume 5. -/
theorem normalized_m3_eq_liters_div_1000_witness :
    normalize_record
      { date := .str "2024-03-15", volume := .num 5, raw := .obj [], cost := none,
        unit := none } none =
      some { date := some (daysFromCivil 2024 3 15), liters := 5000, m3 := 5, euros := none } ∧
    ({ date := some (daysFromCivil 2024 3 15), liters := 5000, m3 := 5,
       euros := none } : NRecord).m3 =
      ({ date := some (daysFromCivil 2024 3 15), liters := 5000, m3 := 5,
         euros := none } : NRecord).liters / 1000 :=
  ⟨by with_unfolding_all rfl,
   normalized_m3_eq_liters_div_1000
     { date := .str "2024-03-15", volume := .num 5, raw := .obj [], cost := none,
       unit := none } none
     { date := some (daysFromCivil 2024 3 15), liters := 5000, m3 := 5, euros := none }
     (by with_unfolding_all rfl)⟩

theorem normalize_record_eq (record : RawRecord) (price : Option Rat) (d : Int) (v : Rat)
    (hd : parse_date (dateCandidate record) = some d)
    (hv : coerce_float record.volume = some v) :
    normalize_record record price = some
      { date := some d,
        liters := (litersAndM3 (unitText record) v).1,
        m3 := (litersAndM3 (unitText record) v).2,
        euros := (match coerce_float ((record.cost).getD Json.null) with
          | some c => some c
          | none =>
            price.map (fun p => (litersAndM3 (unitText record) v).2 * p)).map round2 } := by
  rw [normalize_record, hd, hv]

/-- C5: unit disambiguation.  For a record whose date and volume coerce: a
unit text containing `litre` or equal to an `l` variant makes the volume
liters; otherwise a unit text containing `m3` or `m^3` makes it cubic meters;
otherwise the magnitude heuristic treats volumes above 50 as liters and
volumes at most 50 as cubic meters.  In particular volume 0.25 with unit `m3`
and volume 0.25 with no unit both normalize to `m3 = 0.25`, `liters = 250`. -/
theorem normalize_unit_branches (record : RawRecord) (price : Option Rat)
    (d : Int) (v : Rat) (hd : parse_date (dateCandidate record) = some d)
    (hv : coerce_float record.volume = some v) :
    ((strContains (unitText record) "litre" = true ∨ unitText record = "l" ∨
        unitText record = "litres" ∨ unitText record = "litre") →
      ∃ r, normalize_record record price = some r ∧ r.liters = v ∧ r.m3 = v / 1000) ∧
    (¬(strContains (unitText record) "litre" = true ∨ unitText record = "l" ∨
        unitText record = "litres" ∨ unitText record = "litre") →
      (strContains (unitText record) "m3" = true ∨ strContains (unitText record) "m^3" = true) →
      ∃ r, normalize_record record price = some r ∧ r.m3 = v ∧ r.liters = v * 1000) ∧
    (¬(strContains (unitText record) "litre" = true ∨ unitText record = "l" ∨
        unitText record = "litres" ∨ unitText record = "litre") →
      ¬(strContains (unitText record) "m3" = true ∨ strContains (unitText record) "m^3" = true) →
      (50 < v →
        ∃ r, normalize_record record price = some r ∧ r.liters = v ∧ r.m3 = v / 1000) ∧
      (v ≤ 50 →
        ∃ r, normalize_record record price = some r ∧ r.m3 = v ∧ r.liters = v * 1000)) ∧
    normalize_record
      { date := .str "2024-01-02", volume := .num (1/4), raw := .obj [], cost := none,
        unit := some (.str "m3") } none =
      some { date := some 19724, liters := 250, m3 := 1/4, euros := none } ∧
    normalize_record
      { date := .str "2024-01-02", volume := .num (1/4), raw := .obj [], cost := none,
        unit := none } none =
      some { date := some 19724, liters := 250, m3 := 1/4, euros := none } := by
  refine ⟨?_, ?_, ?_, by with_unfolding_all rfl, by with_unfolding_all rfl⟩
  · intro hcond
    have hbranch : litersAndM3 (unitText record) v = (v, v / 1000) := by
      rw [litersAndM3, if_pos]
      rcases hcond with hc | hc | hc | hc
      · simp [hc]
      · simp [hc]
      · simp [hc]
      · simp [hc]
    refine ⟨_, normalize_record_eq record price d v hd hv, ?_, ?_⟩
    · show (litersAndM3 (unitText record) v).1 = v
      rw [hbranch]
    · show (litersAndM3 (unitText record) v).2 = v / 1000
      rw [hbranch]
  · intro hnot hcond
    have hbranch : litersAndM3 (unitText record) v = (v * 1000, v) := by
      rw [litersAndM3, if_neg, if_pos]
      · rcases hcond with hc | hc
        · simp [hc]
        · simp [hc]
      · simp only [Bool.or_eq_true, decide_eq_true_eq, not_or] at hnot ⊢
        tauto
    refine ⟨_, normalize_record_eq record price d v hd hv, ?_, ?_⟩
    · show (litersAndM3 (unitText record) v).2 = v
      rw [hbranch]
    · show (litersAndM3 (unitText record) v).1 = v * 1000
      rw [hbranch]
  · intro hnot1 hnot2
    constructor
    · intro h50
      have hbranch : litersAndM3 (unitText record) v = (v, v / 1000) := by
        rw [litersAndM3, if_neg, if_neg, if_pos h50]
        · simpa using hnot2
        · simp only [Bool.or_eq_true, decide_eq_true_eq, not_or] at hnot1 ⊢
          tauto
      refine ⟨_, normalize_record_eq record price d v hd hv, ?_, ?_⟩
      · show (litersAndM3 (unitText record) v).1 = v
        rw [hbranch]
      · show (litersAndM3 (unitText record) v).2 = v / 1000
        rw [hbranch]
    · intro h50
      have hbranch : litersAndM3 (unitText record) v = (v * 1000, v) := by
        rw [litersAndM3, if_neg, if_neg, if_neg (not_lt.mpr h50)]
        · simpa using hnot2
        · simp only [Bool.or_eq_true, decide_eq_true_eq, not_or] at hnot1 ⊢
          tauto
      refine ⟨_, normalize_record_eq record price d v hd hv, ?_, ?_⟩
      · show (litersAndM3 (unitText record) v).2 = v
        rw [hbranch]
      · show (litersAndM3 (unitText record) v).1 = v * 1000
        rw [hbranch]

/-- A raw record used to witness the unit branches. -/
def witRecC5 : RawRecord :=
  { date := .str "2024-01-02", volume := .num 2, raw := .obj [], cost := none,
    unit := some (.str "litres") }

/-- C5 witness: an explicit `litres` unit. -/
theorem normalize_unit_branches_witness :
    parse_date (dateCandidate witRecC5) = some 19724 ∧
    coerce_float witRecC5.volume = some 2 ∧
    ∃ r, normalize_record witRecC5 none = some r ∧ r.liters = 2 ∧ r.m3 = 2 / 1000 :=
  ⟨by with_unfolding_all rfl, by with_unfolding_all rfl,
   (normalize_unit_branches witRecC5 none 19724 2 (by with_unfolding_all rfl)
      (by with_unfolding_all rfl)).1
     (Or.inr (Or.inr (Or.inl (by with_unfolding_all rfl))))⟩

theorem dkeyOf_date_eq {x y : NRecord} (h : dkeyOf x = dkeyOf y) : x.date = y.date :=
  congrArg Prod.fst h

theorem dedup_append (L dups : List NRecord) (days : Int)
    (h : ∀ d ∈ dups, ∃ r ∈ L, dkeyOf d = dkeyOf r) (hL : datedRecords L ≠ []) :
    dedupedOf (L ++ dups) days = dedupedOf L days := by
  have hend : endDate (L ++ dups) = endDate L := by
    rw [endDate, endDate, datedRecords_append, List.map_append]
    apply maxDate_append_absorb
    · intro hc
      exact hL (List.map_eq_nil.mp hc)
    · intro x hx
      obtain ⟨⟨x', y⟩, hp, hfst⟩ := List.mem_map.mp hx
      simp only at hfst
      obtain ⟨hy, hdate⟩ := mem_datedRecords.mp hp
      obtain ⟨r, hr, hk⟩ := h y hy
      refine List.mem_map.mpr ⟨(x, r), mem_datedRecords.mpr ⟨hr, ?_⟩, rfl⟩
      rw [← dkeyOf_date_eq hk, hdate, hfst]
  have hcut : cutoffOf (L ++ dups) days = cutoffOf L days := by
    rw [cutoffOf, cutoffOf, hend]
  rw [dedupedOf, dedupedOf, filteredOf, filteredOf, hcut, hend, filteredWith_append]
  apply dedupAux_append_absorb
  intro y hy
  right
  obtain ⟨δ, hdate, hydups, hb1, hb2⟩ := mem_filteredWith.mp hy
  obtain ⟨r, hr, hk⟩ := h y hydups
  refine List.mem_map.mpr ⟨r, mem_filteredWith.mpr ⟨δ, ?_, hr, hb1, hb2⟩, hk.symm⟩
  rw [← dkeyOf_date_eq hk, hdate]

/-- C7: aggregation is invariant under appending exact duplicates — records
that agree with some record of the original list on the deduplication key
(same date; same liters, m3 and cost after rounding to 6 decimals, a missing
cost only matching a missing cost): the totals are unchanged. -/
theorem aggregate_duplicate_invariant (L dups : List NRecord) (days : Int)
    (price : Option Rat) (md : Metadata)
    (h : ∀ d ∈ dups, ∃ r ∈ L, dkeyOf d = dkeyOf r) :
    (aggregate_last_days (L ++ dups) days price md).totals =
      (aggregate_last_days L days price md).totals := by
  by_cases hL : datedRecords L = []
  · have hdups : datedRecords dups = [] := by
      apply datedRecords_eq_nil_iff.mpr
      intro r hr
      obtain ⟨s, hs, hk⟩ := h r hr
      rw [dkeyOf_date_eq hk]
      exact (datedRecords_eq_nil_iff.mp hL) s hs
    have hall : datedRecords (L ++ dups) = [] := by
      rw [datedRecords_append, hL, hdups]; rfl
    have hL' : (datedRecords L).isEmpty = true := by rw [hL]; rfl
    have hall' : (datedRecords (L ++ dups)).isEmpty = true := by rw [hall]; rfl
    simp [aggregate_last_days, hL', hall']
  · have hded := dedup_append L dups days h hL
    have hLne : datedRecords (L ++ dups) ≠ [] := by
      rw [datedRecords_append]
      intro hc
      exact hL (List.append_eq_nil.mp hc).1
    have hb1 := isEmpty_false_of_ne_nil hLne
    have hb2 := isEmpty_false_of_ne_nil hL
    simp only [aggregate_last_days, hb1, hb2, Bool.false_eq_true, if_false]
    simp [totalLitersOf, totalM3Of, totalEurosOf, hded]

/-- The list duplicated in the C7 witness. -/
def witRecsC7 : List NRecord :=
  [{ date := some 0, liters := 100, m3 := 1/10, euros := none }]

/-- C7 witness: appending an exact copy of the single record leaves the
totals unchanged. -/
theorem aggregate_duplicate_invariant_witness :
    (∀ d ∈ witRecsC7, ∃ r ∈ witRecsC7, dkeyOf d = dkeyOf r) ∧
    (aggregate_last_days (witRecsC7 ++ witRecsC7) 40 none []).totals =
      (aggregate_last_days witRecsC7 40 none []).totals :=
  ⟨by with_unfolding_all decide,
   aggregate_duplicate_invariant witRecsC7 witRecsC7 40 none []
     (by with_unfolding_all decide)⟩

/-- A payload in which the same metadata source key occurs twice, in two
sibling subtrees, with different values. -/
def cexPayloadC1 : Json :=
  .obj [("a", .obj [("consommationMax", .num 1)]),
        ("b", .obj [("consommationMax", .num 2)])]

/-- C1 counterexample: within one payload tree the later occurrence of
`consommationMax` (value 2) overwrites the earlier one (value 1) — the claim
predicts the first value 1 to win, but `find_metadata` stores 2. -/
theorem find_metadata_overwrites_within_payload :
    (find_metadata cexPayloadC1).lookup "consommation_max_m3" = some (Json.num 2) ∧
    Json.num 2 ≠ Json.num 1 :=
  ⟨by with_unfolding_all rfl, by intro h; cases h⟩

/-- A payload whose single mapping holds two case-variants of the same
metadata source key. -/
def cexPayloadC1b : Json :=
  .obj [("x", .obj [("ConsommationMax", .num 5), ("cONSOMMATIONmAX", .num 7)])]

theorem lookup_append_of_some {d : Metadata} {k : String} {v : Json}
    (l2 : Metadata) (h : d.lookup k = some v) : (d ++ l2).lookup k = some v := by
  induction d with
  | nil => cases h
  | cons a t ih =>
    rw [List.cons_append, List.lookup]
    rw [List.lookup] at h
    cases hk : (k == a.1) with
    | true => rw [hk] at h; exact h
    | false => rw [hk] at h; exact ih h

theorem lookup_dictSetdefault {d : Metadata} {k : String} {v : Json}
    (k' : String) (v' : Json) (h : d.lookup k = some v) :
    (dictSetdefault d k' v').lookup k = some v := by
  rw [dictSetdefault]
  split
  · exact h
  · exact lookup_append_of_some _ h

theorem lookup_foldl_setdefault {k : String} {v : Json} (kvs : Metadata)
    (md : Metadata) (h : md.lookup k = some v) :
    (kvs.foldl (fun m kv => dictSetdefault m kv.1 kv.2) md).lookup k = some v := by
  induction kvs generalizing md with
  | nil => exact h
  | cons a t ih => exact ih _ (lookup_dictSetdefault a.1 a.2 h)

/-- C1 amended: across payloads the accumulator is merged with set-if-absent,
so a metadata key set by an earlier payload is never overwritten by any
subsequently processed payload; but within a single payload tree each later
occurrence of a matching source key overwrites the stored value (last
occurrence wins), as the second conjunct shows on a mapping carrying two
case-variants of `consommationMax`. -/
theorem metadata_first_payload_wins_amended :
    (∀ (md : Metadata) (payloads : List Json) (k : String) (v : Json),
      md.lookup k = some v → (accumulateMetadata md payloads).lookup k = some v) ∧
    (find_metadata cexPayloadC1b).lookup "consommation_max_m3" = some (Json.num 7) := by
  constructor
  · intro md payloads k v h
    induction payloads generalizing md with
    | nil => exact h
    | cons p t ih =>
      exact ih _ (lookup_foldl_setdefault (find_metadata p) md h)
  · with_unfolding_all rfl

/-- C1 amended witness: a pre-set key survives the processing of a payload
that matches the same key. -/
theorem metadata_first_payload_wins_amended_witness :
    ([(("consommation_max_m3" : String), Json.num 9)] : Metadata).lookup
      "consommation_max_m3" = some (Json.num 9) ∧
    (accumulateMetadata [("consommation_max_m3", Json.num 9)] [cexPayloadC1]).lookup
      "consommation_max_m3" = some (Json.num 9) :=
  ⟨by with_unfolding_all rfl,
   metadata_first_payload_wins_amended.1 [("consommation_max_m3", Json.num 9)]
     [cexPayloadC1] "consommation_max_m3" (Json.num 9) (by with_unfolding_all rfl)⟩

/-- The key matcher as the claim words it (spec §4.2): keys normalized by
dropping all non-alphanumeric characters and lower-casing before the
substring test.  Stated only to be compared with the source's `find_key`. -/
def find_key_spec (obj : List (String × Json)) (keys : List String) : Option String :=
  (obj.map Prod.fst).find?
    (fun k => keys.any (fun token => strContains (normalize_key k) token))

/-- C3 counterexample: on a mapping with the single key `"m 3"` and the
volume aliases, the source's `find_key` (which only lower-cases) finds no
match, while the claim's matcher (which also strips non-alphanumerics,
turning the key into `m3`) would return the key. -/
theorem find_key_no_alnum_strip :
    find_key [("m 3", Json.num 1)] VOLUME_KEYS = none ∧
    find_key_spec [("m 3", Json.num 1)] VOLUME_KEYS = some "m 3" :=
  ⟨by with_unfolding_all rfl, by with_unfolding_all rfl⟩

/-- C3 amended: the key matcher lower-cases each key name — it does not strip
non-alphanumeric characters — and returns the first key in the mapping's
iteration order whose lower-cased form contains any alias token as a
substring, or none when no key's lower-cased form contains an alias. -/
theorem find_key_characterization (obj : List (String × Json)) (keys : List String) :
    (∀ k, find_key obj keys = some k ↔
      ((keys.any (fun token => strContains (pyLower k) token)) = true ∧
        ∃ pre post, obj.map Prod.fst = pre ++ k :: post ∧
          ∀ k' ∈ pre, (keys.any (fun token => strContains (pyLower k') token)) = false)) ∧
    (find_key obj keys = none ↔
      ∀ k ∈ obj.map Prod.fst,
        (keys.any (fun token => strContains (pyLower k) token)) = false) := by
  constructor
  · intro k
    rw [find_key, List.find?_eq_some]
    simp only [Bool.not_eq_true']
  · rw [find_key, List.find?_eq_none]
    simp only [Bool.not_eq_true]

/-- Two records sharing a date but with different volumes. -/
def cexRecsC9 : List NRecord :=
  [{ date := some 0, liters := 100, m3 := 1/10, euros := none },
   { date := some 0, liters := 200, m3 := 1/5, euros := none }]

/-- C9 counterexample: both records survive deduplication (their keys differ
in liters/m3), so the output `daily` holds two entries with the same calendar
date — `daily` is not strictly ascending. -/
theorem daily_shares_date_counterexample :
    ((aggregate_last_days cexRecsC9 1 none []).daily.map (fun r => r.date)) =
      [some 0, some 0] :=
  by with_unfolding_all rfl

/-- C9 amended: `daily` is always sorted in non-decreasing (not necessarily
strictly increasing) date order. -/
theorem daily_sorted_nondecreasing (records : List NRecord) (days : Int)
    (price : Option Rat) (md : Metadata) :
    List.Sorted dateLe (aggregate_last_days records days price md).daily := by
  by_cases hb : (datedRecords records).isEmpty = true
  · simp [aggregate_last_days, hb]
  · have hb' : (datedRecords records).isEmpty = false := by
      cases hx : (datedRecords records).isEmpty
      · rfl
      · exact absurd hx hb
    simp only [aggregate_last_days, hb', Bool.false_eq_true, if_false]
    exact List.sorted_insertionSort dateLe (dedupedOf records days)

/-- C3 amended witness: the characterization evaluated on a one-key mapping
whose key `Date` lower-cases to a string containing the alias `date`. -/
theorem find_key_characterization_witness :
    (List.any DATE_KEYS (fun token => strContains (pyLower "Date") token)) = true ∧
    ∃ pre post, ([(("Date" : String), Json.num 1)]).map Prod.fst = pre ++ "Date" :: post ∧
      ∀ k' ∈ pre, (List.any DATE_KEYS (fun token => strContains (pyLower k') token)) = false :=
  ((find_key_characterization [("Date", Json.num 1)] DATE_KEYS).1 "Date").mp
    (by with_unfolding_all rfl)
